import Mathlib

/-!
Verification development for the word-recognizer repository
(`my_recognizer.py`, `my_model_selectors.py`).

Conventions of the shallow embedding:

* Python floats produced by the repository's own arithmetic are modelled as
  rationals `ℚ`; the sentinel `float("-Inf")` is `⊥ : WithBot ℚ` and
  `float("Inf")` is `⊤ : WithTop ℚ`.
* Python words (strings) are modelled by an abstract linearly ordered type of
  word codes, `Word := ℕ`; Python's lexicographic order on strings transports
  to the order on the codes (`max` over dict keys becomes `max` on codes).
* Python dicts are association lists in insertion order; assignment updates an
  existing key in place and appends a fresh key, exactly as CPython does.
* External library calls (hmmlearn `GaussianHMM(...).fit`, `model.score`,
  `math.log`) enter as oracle fields: a fit either returns a model (a bundle
  of scoring results) or raises (`none`); a score either returns a value or
  raises (`none`).  Everything the repository itself computes is defined
  below, following the Python control flow statement by statement.
-/

namespace AslRec

abbrev Word := ℕ

abbrev Dict (V : Type) := List (Word × V)

def dictKeys {V : Type} (d : Dict V) : List Word := d.map Prod.fst

def dictGet {V : Type} (d : Dict V) (k : Word) : Option V :=
  (d.find? fun p => p.1 == k).map Prod.snd

/-- Python dict assignment `d[k] = v`: an existing key keeps its position and
gets the new value; a fresh key is appended at the end. -/
def dictInsert {V : Type} (d : Dict V) (k : Word) (v : V) : Dict V :=
  if d.any fun p => p.1 == k then
    d.map fun p => if p.1 == k then (k, v) else p
  else d ++ [(k, v)]

/-! ### `my_recognizer.recognize`

`recognize(models, test_set)` re-keys the test set's `Xlengths` dict by the
words of `test_set.wordlist` (the loop `new_xlengths[all_words[i]] =
Xlengths.pop(old_keys[i])`, where the popped values are aligned with the
wordlist), then loops over `models.items()` and, for each model, over
`all_words`, building `prob_dict` and appending `max(prob_dict)` to the
guesses.  A test set is passed as the list `wordlist` zipped with the item
data (the alignment invariant of `SinglesData`); a model is its `score`
method: item data to `Option ℚ`, `none` meaning the call raised. -/

/-- The `new_xlengths` dict: word of each test item mapped to that item's
data; a duplicated word ends up holding the data of its last occurrence.
The `{word: None for word in all_words}` pre-initialisation only fixes the
key order to first occurrence, which the fold reproduces. -/
def newX {α : Type} (testSet : List (Word × α)) : Dict α :=
  testSet.foldl (fun d p => dictInsert d p.1 p.2) []

/-- One entry of `prob_dict`: `model.score(new_xlengths[word][0],
new_xlengths[word][1])` with the bare `except` mapping any failure (including
a missing key) to `float("-Inf")`. -/
def rowScore {α : Type} (model : α → Option ℚ) (nx : Dict α) (w : Word) :
    WithBot ℚ :=
  match (dictGet nx w).bind model with
  | some l => (l : WithBot ℚ)
  | none => ⊥

/-- The `prob_dict` built for one model: one assignment per element of
`all_words`, in order. -/
def probDict {α : Type} (model : α → Option ℚ) (nx : Dict α)
    (allWords : List Word) : Dict (WithBot ℚ) :=
  allWords.foldl (fun d w => dictInsert d w (rowScore model nx w)) []

/-- Python `max(prob_dict)`: the maximum of the dict's keys (`none` models
the `ValueError` on an empty dict). -/
def pyMax (ks : List Word) : Option Word :=
  match ks with
  | [] => none
  | k :: t => some (t.foldl (fun a b => if a < b then b else a) k)

/-- `my_recognizer.recognize`.  Returns `(probabilities, guesses)`: one
`prob_dict` and one `max(prob_dict)` per entry of `models.items()`. -/
def recognize {α : Type} (models : List (Word × (α → Option ℚ)))
    (testSet : List (Word × α)) :
    List (Dict (WithBot ℚ)) × List (Option Word) :=
  let allWords := testSet.map Prod.fst
  let nx := newX testSet
  let rows := models.map fun p => probDict p.2 nx allWords
  (rows, rows.map fun r => pyMax (dictKeys r))

/-! ### Dictionary lemmas -/

theorem find?_map_upd_self {V : Type} (d : Dict V) (k : Word) (v : V)
    (h : ∃ p ∈ d, p.1 = k) :
    (d.map fun p => if p.1 == k then (k, v) else p).find?
        (fun p => p.1 == k) = some (k, v) := by
  induction d with
  | nil => simp at h
  | cons q t ih =>
    rw [List.map_cons]
    by_cases hq : q.1 = k
    · have hfq : (if q.1 == k then ((k, v) : Word × V) else q) = (k, v) := by
        simp [hq]
      rw [hfq, List.find?_cons_of_pos _ (by simp)]
    · have hfq : (if q.1 == k then ((k, v) : Word × V) else q) = q := by
        simp [hq]
      rcases h with ⟨p, hp, hpk⟩
      rcases List.mem_cons.mp hp with rfl | hpt
      · exact absurd hpk hq
      · rw [hfq, List.find?_cons_of_neg _ (by simp [hq])]
        exact ih ⟨p, hpt, hpk⟩

theorem find?_map_upd_ne {V : Type} (d : Dict V) (k k' : Word) (v : V)
    (h : k' ≠ k) :
    (d.map fun p => if p.1 == k then (k, v) else p).find?
        (fun p => p.1 == k') = d.find? (fun p => p.1 == k') := by
  induction d with
  | nil => rfl
  | cons q t ih =>
    rw [List.map_cons]
    by_cases hq : q.1 = k
    · have hfq : (if q.1 == k then ((k, v) : Word × V) else q) = (k, v) := by
        simp [hq]
      rw [hfq, List.find?_cons_of_neg _ (by simp [Ne.symm h]),
        List.find?_cons_of_neg _ (by simp [hq, Ne.symm h]), ih]
    · have hfq : (if q.1 == k then ((k, v) : Word × V) else q) = q := by
        simp [hq]
      by_cases hk' : q.1 = k'
      · rw [hfq, List.find?_cons_of_pos _ (by simp [hk']),
          List.find?_cons_of_pos _ (by simp [hk'])]
      · rw [hfq, List.find?_cons_of_neg _ (by simp [hk']),
          List.find?_cons_of_neg _ (by simp [hk']), ih]

theorem dictGet_insert_self {V : Type} (d : Dict V) (k : Word) (v : V) :
    dictGet (dictInsert d k v) k = some v := by
  unfold dictInsert
  split
  · rename_i hany
    have hex : ∃ p ∈ d, p.1 = k := by
      rcases List.any_eq_true.mp hany with ⟨p, hp, hpk⟩
      exact ⟨p, hp, beq_iff_eq.mp hpk⟩
    rw [dictGet, find?_map_upd_self d k v hex]
    rfl
  · rename_i hany
    have hno : d.find? (fun p => p.1 == k) = none := by
      refine List.find?_eq_none.mpr fun p hp => ?_
      intro hpk
      exact hany (List.any_eq_true.mpr ⟨p, hp, hpk⟩)
    rw [dictGet, List.find?_append, hno,
      List.find?_cons_of_pos _ (by simp)]
    rfl

theorem dictGet_insert_ne {V : Type} (d : Dict V) (k k' : Word) (v : V)
    (h : k' ≠ k) : dictGet (dictInsert d k v) k' = dictGet d k' := by
  unfold dictInsert
  split
  · rw [dictGet, find?_map_upd_ne d k k' v h]; rfl
  · have h2 : List.find? (fun p : Word × V => p.1 == k') [(k, v)] = none := by
      rw [List.find?_cons_of_neg _ (by simp [Ne.symm h])]
      rfl
    rw [dictGet, List.find?_append, h2, Option.or_none]
    rfl

theorem probDict_get_aux {α : Type} (model : α → Option ℚ) (nx : Dict α)
    (ws : List Word) (w : Word) :
    ∀ d : Dict (WithBot ℚ),
      (dictGet d w = some (rowScore model nx w) ∨ w ∈ ws) →
      dictGet (ws.foldl (fun d' w' => dictInsert d' w' (rowScore model nx w')) d)
          w = some (rowScore model nx w) := by
  induction ws with
  | nil => intro d hd; simpa using hd.resolve_right (by simp)
  | cons x t ih =>
    intro d hd
    simp only [List.foldl_cons]
    apply ih
    by_cases hx : w = x
    · left; subst hx; exact dictGet_insert_self d w _
    · rcases hd with hd | hd
      · left; rw [dictGet_insert_ne d x w _ hx]; exact hd
      · right; rcases List.mem_cons.mp hd with h | h
        · exact absurd h hx
        · exact h

/-- Every word of `all_words` gets exactly one entry in `prob_dict`, holding
its own `rowScore`. -/
theorem probDict_get {α : Type} (model : α → Option ℚ) (nx : Dict α)
    (allWords : List Word) (w : Word) (hw : w ∈ allWords) :
    dictGet (probDict model nx allWords) w = some (rowScore model nx w) :=
  probDict_get_aux model nx allWords w [] (Or.inr hw)


/-! ### Concrete recognizer runs

Word codes for the concrete instances: test-item words `"a" ↦ 0`, `"b" ↦ 1`
(so `"a" < "b"` becomes `0 < 1`), catalog/model word `"M" ↦ 100`. -/

/-- A model whose `score` always succeeds with log-likelihood 1. -/
def scoreOne : ℕ → Option ℚ := fun _ => some 1

/-- A model scoring item 0 with log-likelihood 10 and raising on item 1. -/
def scoreTen : ℕ → Option ℚ := fun i => if i = 0 then some 10 else none

/-- A model whose `score` always raises. -/
def scoreFail : ℕ → Option ℚ := fun _ => none

/-- A test set of two items with distinct words `"a"`, `"b"`. -/
def testAB : List (Word × ℕ) := [(0, 0), (1, 1)]

def modelsOne : List (Word × (ℕ → Option ℚ)) := [(100, scoreOne)]

def modelsTen : List (Word × (ℕ → Option ℚ)) := [(100, scoreTen)]

def modelsFail : List (Word × (ℕ → Option ℚ)) := [(100, scoreFail)]

/-- C1: the spec demands one `(ScoreRow, best_guess)` pair per *test item*,
aligned with test-item order, each row having one entry per *catalog word*.
The code instead loops over `models.items()` and keys each row by the test
words: for a catalog of one word and a test set of two items it returns one
row of length two — the row count equals the catalog size and the row length
equals the test-set size, the transpose of the documented shape. -/
theorem claim_C1 :
    (recognize modelsOne testAB).1.map List.length = [2]
      ∧ modelsOne.length = 1 ∧ testAB.length = 2
      ∧ (recognize modelsOne testAB).1.length ≠ testAB.length
      ∧ (recognize modelsOne testAB).1.length = modelsOne.length := by
  refine ⟨by decide, rfl, rfl, by decide, by decide⟩

/-- C2: the spec says `best_guess` is the word attaining the maximum
log-likelihood in the row.  The code computes `max(prob_dict)`, the maximum
*key* in string order: here the row scores word `0` (`"a"`) at `10` and word
`1` (`"b"`) at `-inf`, yet the guess is word `1`, the alphabetically larger
word with the strictly smaller score. -/
theorem claim_C2 :
    (recognize modelsTen testAB).1
        = [[(0, ((10 : ℚ) : WithBot ℚ)), (1, (⊥ : WithBot ℚ))]]
      ∧ (recognize modelsTen testAB).2 = [some 1]
      ∧ (⊥ : WithBot ℚ) < ((10 : ℚ) : WithBot ℚ)
      ∧ (1 : Word) ≠ 0 := by
  refine ⟨by decide, by decide, by decide, by decide⟩

/-- C3: a scoring failure for one (model, test-word) pair is recorded as the
`-inf` sentinel in that pair's row entry, the entry is present (not omitted),
recognition still returns one row per model, and every other entry of the row
equals its own independently computed score — the failure propagates no
further than its own entry. -/
theorem claim_C3 {α : Type} (models : List (Word × (α → Option ℚ)))
    (ts : List (Word × α)) (p : Word × (α → Option ℚ)) (hp : p ∈ models)
    (w : Word) (hw : w ∈ ts.map Prod.fst)
    (hfail : (dictGet (newX ts) w).bind p.2 = none)
    (w' : Word) (hw' : w' ∈ ts.map Prod.fst) :
    (recognize models ts).1.length = models.length
      ∧ (recognize models ts).2.length = models.length
      ∧ probDict p.2 (newX ts) (ts.map Prod.fst) ∈ (recognize models ts).1
      ∧ dictGet (probDict p.2 (newX ts) (ts.map Prod.fst)) w = some ⊥
      ∧ dictGet (probDict p.2 (newX ts) (ts.map Prod.fst)) w'
          = some (rowScore p.2 (newX ts) w') := by
  refine ⟨by simp [recognize], by simp [recognize], ?_, ?_, ?_⟩
  · exact List.mem_map_of_mem (fun q => probDict q.2 (newX ts) (ts.map Prod.fst)) hp
  · have hb : rowScore p.2 (newX ts) w = ⊥ := by
      unfold rowScore
      rw [hfail]
    rw [probDict_get p.2 (newX ts) _ w hw, hb]
  · exact probDict_get p.2 (newX ts) _ w' hw'

/-- Witness for C3 at a concrete input: one model whose scoring raises on
every item, a two-item test set. -/
theorem claim_C3_witness :
    (recognize modelsFail testAB).1.length = modelsFail.length
      ∧ (recognize modelsFail testAB).2.length = modelsFail.length
      ∧ probDict scoreFail (newX testAB) (testAB.map Prod.fst)
          ∈ (recognize modelsFail testAB).1
      ∧ dictGet (probDict scoreFail (newX testAB) (testAB.map Prod.fst)) 0
          = some ⊥
      ∧ dictGet (probDict scoreFail (newX testAB) (testAB.map Prod.fst)) 1
          = some (rowScore scoreFail (newX testAB) 1) :=
  claim_C3 modelsFail testAB (100, scoreFail) (by simp [modelsFail])
    0 (by decide) (by decide) 1 (by decide)

/-! ### `my_model_selectors`

A fitted hmmlearn model enters the embedding as the bundle of scoring results
the selectors can ask of it: its log-likelihood on this word's own full data
(`self.X, self.lengths`) and on any other word's full data (`self.hwords[w]`);
`none` means the `score` call raised. -/

structure HModel where
  scoreSelf : Option ℚ
  scoreWord : Word → Option ℚ

/-- How a call to `select()` ends: an explicit `return None`, a normal return
of the model fit with `n` states on the word's full data, or an exception
escaping `select()`. -/
inductive SelOutcome where
  | retNone
  | retModel (n : ℕ)
  | raised
deriving DecidableEq

/-- The state a `ModelSelector` is constructed with, plus the oracles for the
external libraries.  Field by field: `minN`/`maxN` are
`self.min_n_components`/`self.max_n_components`; `verbose` is `self.verbose`;
`lengths` is `self.lengths`; `nSamples`/`nFeatures` are `self.X.shape`;
`lnNS` is the external `math.log(n_samples)`; `fit n` is
`GaussianHMM(n_components=n, ...).fit(self.X, self.lengths)` (deterministic
for the fixed `random_state`, `none` when it raises); `otherWords` is
`list(self.words.keys())` with `self.this_word` removed; `numSeq` is
`len(self.sequences)`; `cvFold n f` is the result of fold `f`'s try block for
candidate `n` in `SelectorCV` (split, fit on the training part, score on the
held-out part; `none` when any of it raises). -/
structure ModelSelector where
  minN : ℕ
  maxN : ℕ
  verbose : Bool
  lengths : List ℕ
  nSamples : ℕ
  nFeatures : ℕ
  lnNS : ℚ
  fit : ℕ → Option HModel
  otherWords : List Word
  numSeq : ℕ
  cvFold : ℕ → ℕ → Option ℚ

/-- `range(self.min_n_components, self.max_n_components + 1)`. -/
def candidates (S : ModelSelector) : List ℕ :=
  List.range' S.minN (S.maxN + 1 - S.minN)

/-- A `for` loop over candidate state counts whose body either returns from
`select()` (left) or hands the updated `(best_score, best_num_states)` pair
to the next iteration (right). -/
def selLoop {σ : Type} (body : σ → ℕ → SelOutcome ⊕ σ) : List ℕ → σ → SelOutcome ⊕ σ
  | [], st => Sum.inr st
  | n :: ns, st =>
    match body st n with
    | Sum.inl o => Sum.inl o
    | Sum.inr st' => selLoop body ns st'

/-- The final refit shared by the three search selectors:
`GaussianHMM(n_components=best_num_states, ...).fit(self.X, self.lengths)`,
outside any try/except, so a fit failure here escapes `select()`. -/
def refit (S : ModelSelector) (r : SelOutcome ⊕ (β × ℕ)) : SelOutcome :=
  match r with
  | Sum.inl o => o
  | Sum.inr (_, bestN) =>
    match S.fit bestN with
    | some _ => SelOutcome.retModel bestN
    | none => SelOutcome.raised

/-- The parameter count `num_states ** 2 + 2 * num_states * n_features - 1`. -/
def nParams (S : ModelSelector) (n : ℕ) : ℚ :=
  (n : ℚ) ^ 2 + 2 * (n : ℚ) * (S.nFeatures : ℚ) - 1

/-- The try-block of `SelectorBIC.select` after the sample-count guard: fit,
score on the training data, and form `(-2 * logL) + (n_params * log(N))`;
`none` when the fit or the score raised. -/
def bicTry (S : ModelSelector) (n : ℕ) : Option ℚ :=
  match S.fit n with
  | none => none
  | some m =>
    match m.scoreSelf with
    | none => none
    | some l => some (-2 * l + nParams S n * S.lnNS)

/-- One iteration of the `SelectorBIC.select` loop.  `BIC_score` starts at 0;
`if num_states > sum(self.lengths): return None`; on an exception the handler
returns `None` only when `self.verbose` is on (the `return` is indented under
the `if`), otherwise `BIC_score` is still 0 when the
`if BIC_score < best_score` comparison runs. -/
def bicBody (S : ModelSelector) (st : WithTop ℚ × ℕ) (n : ℕ) :
    SelOutcome ⊕ (WithTop ℚ × ℕ) :=
  if S.lengths.sum < n then Sum.inl SelOutcome.retNone
  else
    match bicTry S n with
    | some v => Sum.inr (if (v : WithTop ℚ) < st.1 then ((v : WithTop ℚ), n) else st)
    | none =>
      if S.verbose then Sum.inl SelOutcome.retNone
      else Sum.inr (if ((0 : ℚ) : WithTop ℚ) < st.1 then (((0 : ℚ) : WithTop ℚ), n) else st)

/-- `SelectorBIC.select`: `best_score = float("Inf")`, `best_num_states = 2`,
loop, then refit with the tracked best. -/
def SelectorBIC.select (S : ModelSelector) : SelOutcome :=
  refit S (selLoop (bicBody S) (candidates S) ((⊤ : WithTop ℚ), 2))

/-- Sum of a list of scores where any raising element poisons the whole sum
(the list comprehension `[hmm_model.score(...) for word in anti_words]`). -/
def optSum : List (Option ℚ) → Option ℚ
  | [] => some 0
  | o :: t =>
    match o with
    | none => none
    | some x =>
      match optSum t with
      | none => none
      | some s => some (x + s)

/-- The try-block of `SelectorDIC.select`: fit, score on own data, score the
same model on every other word's data, and form
`logL - anti_scores / len(anti_words)`; `none` when anything raises,
including the `ZeroDivisionError` when there are no other words. -/
def dicTry (S : ModelSelector) (n : ℕ) : Option ℚ :=
  match S.fit n with
  | none => none
  | some m =>
    match m.scoreSelf with
    | none => none
    | some l =>
      match optSum (S.otherWords.map m.scoreWord) with
      | none => none
      | some t =>
        if S.otherWords.length = 0 then none
        else some (l - t / (S.otherWords.length : ℚ))

/-- One iteration of the `SelectorDIC.select` loop; `DIC_score` starts at 0,
the handler returns `None` only under `self.verbose`, and
`if DIC_score > best_score` tracks the maximum. -/
def dicBody (S : ModelSelector) (st : WithBot ℚ × ℕ) (n : ℕ) :
    SelOutcome ⊕ (WithBot ℚ × ℕ) :=
  match dicTry S n with
  | some v => Sum.inr (if st.1 < (v : WithBot ℚ) then ((v : WithBot ℚ), n) else st)
  | none =>
    if S.verbose then Sum.inl SelOutcome.retNone
    else Sum.inr (if st.1 < ((0 : ℚ) : WithBot ℚ) then (((0 : ℚ) : WithBot ℚ), n) else st)

/-- `SelectorDIC.select`: `best_score = float("-Inf")`, `best_num_states = 2`,
loop, refit. -/
def SelectorDIC.select (S : ModelSelector) : SelOutcome :=
  refit S (selLoop (dicBody S) (candidates S) ((⊥ : WithBot ℚ), 2))

/-- The inner fold loop of `SelectorCV.select` when K-folding is on:
`score = 0`, then for each of the three folds the try block either adds the
held-out log-likelihood or, on an exception, returns `None` when
`self.verbose` is on and just skips the fold otherwise.  `none` models the
early `return None`. -/
def cvFoldLoop (S : ModelSelector) (n : ℕ) : Option ℚ :=
  (List.range 3).foldl
    (fun acc f =>
      match acc with
      | none => none
      | some s =>
        match S.cvFold n f with
        | some l => some (s + l)
        | none => if S.verbose then none else some s)
    (some 0)

/-- One iteration of the `SelectorCV.select` loop: fewer than 3 sequences
means `n_split = 1` and a single fit-and-score on the full data, otherwise
`n_split = 3` and the fold loop; either way `score /= n_split` and
`if score > best_score` tracks the maximum. -/
def cvBody (S : ModelSelector) (st : WithBot ℚ × ℕ) (n : ℕ) :
    SelOutcome ⊕ (WithBot ℚ × ℕ) :=
  if S.numSeq < 3 then
    match (S.fit n).bind HModel.scoreSelf with
    | some l =>
      Sum.inr (if st.1 < ((l / 1 : ℚ) : WithBot ℚ) then (((l / 1 : ℚ) : WithBot ℚ), n) else st)
    | none =>
      if S.verbose then Sum.inl SelOutcome.retNone
      else Sum.inr (if st.1 < (((0 : ℚ) / 1 : ℚ) : WithBot ℚ) then ((((0 : ℚ) / 1 : ℚ) : WithBot ℚ), n) else st)
  else
    match cvFoldLoop S n with
    | none => Sum.inl SelOutcome.retNone
    | some s =>
      Sum.inr (if st.1 < ((s / 3 : ℚ) : WithBot ℚ) then (((s / 3 : ℚ) : WithBot ℚ), n) else st)

/-- `SelectorCV.select`: `best_score = float("-Inf")`, `best_num_states = 2`,
loop, refit. -/
def SelectorCV.select (S : ModelSelector) : SelOutcome :=
  refit S (selLoop (cvBody S) (candidates S) ((⊥ : WithBot ℚ), 2))

/-! ### First-minimum / first-maximum of a score over a candidate list

`if score < best_score` (resp. `>`) with a strict comparison keeps the first
candidate attaining the optimum; these folds mirror the loop's tracking of
`best_num_states` once every iteration succeeds. -/

def firstMinBy (f : ℕ → ℚ) (b : ℕ) (ns : List ℕ) : ℕ :=
  ns.foldl (fun a n => if f n < f a then n else a) b

def firstMaxBy (f : ℕ → ℚ) (b : ℕ) (ns : List ℕ) : ℕ :=
  ns.foldl (fun a n => if f a < f n then n else a) b

theorem firstMinBy_cons (f : ℕ → ℚ) (b n : ℕ) (ns : List ℕ) :
    firstMinBy f b (n :: ns) = firstMinBy f (if f n < f b then n else b) ns := rfl

theorem firstMaxBy_cons (f : ℕ → ℚ) (b n : ℕ) (ns : List ℕ) :
    firstMaxBy f b (n :: ns) = firstMaxBy f (if f b < f n then n else b) ns := rfl

theorem firstMinBy_mem (f : ℕ → ℚ) (ns : List ℕ) :
    ∀ b : ℕ, firstMinBy f b ns ∈ b :: ns := by
  induction ns with
  | nil => intro b; simp [firstMinBy]
  | cons n t ih =>
    intro b
    by_cases hc : f n < f b
    · rw [firstMinBy_cons, if_pos hc]
      exact List.mem_cons_of_mem _ (ih n)
    · rw [firstMinBy_cons, if_neg hc]
      rcases List.mem_cons.mp (ih b) with h1 | h1
      · rw [h1]; exact List.mem_cons_self _ _
      · exact List.mem_cons_of_mem _ (List.mem_cons_of_mem _ h1)

theorem firstMaxBy_mem (f : ℕ → ℚ) (ns : List ℕ) :
    ∀ b : ℕ, firstMaxBy f b ns ∈ b :: ns := by
  induction ns with
  | nil => intro b; simp [firstMaxBy]
  | cons n t ih =>
    intro b
    by_cases hc : f b < f n
    · rw [firstMaxBy_cons, if_pos hc]
      exact List.mem_cons_of_mem _ (ih n)
    · rw [firstMaxBy_cons, if_neg hc]
      rcases List.mem_cons.mp (ih b) with h1 | h1
      · rw [h1]; exact List.mem_cons_self _ _
      · exact List.mem_cons_of_mem _ (List.mem_cons_of_mem _ h1)

theorem firstMinBy_le (f : ℕ → ℚ) (ns : List ℕ) :
    ∀ b : ℕ, ∀ k ∈ b :: ns, f (firstMinBy f b ns) ≤ f k := by
  induction ns with
  | nil =>
    intro b k hk
    rcases List.mem_cons.mp hk with rfl | h
    · exact le_refl _
    · simp at h
  | cons n t ih =>
    intro b k hk
    by_cases hc : f n < f b
    · rw [firstMinBy_cons, if_pos hc]
      rcases List.mem_cons.mp hk with rfl | hk1
      · exact le_trans (ih n n (List.mem_cons_self _ _)) (le_of_lt hc)
      · exact ih n k hk1
    · rw [firstMinBy_cons, if_neg hc]
      rcases List.mem_cons.mp hk with rfl | hk1
      · exact ih k k (List.mem_cons_self _ _)
      · rcases List.mem_cons.mp hk1 with rfl | hk2
        · exact le_trans (ih b b (List.mem_cons_self _ _)) (not_lt.mp hc)
        · exact ih b k (List.mem_cons_of_mem _ hk2)

theorem firstMaxBy_ge (f : ℕ → ℚ) (ns : List ℕ) :
    ∀ b : ℕ, ∀ k ∈ b :: ns, f k ≤ f (firstMaxBy f b ns) := by
  induction ns with
  | nil =>
    intro b k hk
    rcases List.mem_cons.mp hk with rfl | h
    · exact le_refl _
    · simp at h
  | cons n t ih =>
    intro b k hk
    by_cases hc : f b < f n
    · rw [firstMaxBy_cons, if_pos hc]
      rcases List.mem_cons.mp hk with rfl | hk1
      · exact le_trans (le_of_lt hc) (ih n n (List.mem_cons_self _ _))
      · exact ih n k hk1
    · rw [firstMaxBy_cons, if_neg hc]
      rcases List.mem_cons.mp hk with rfl | hk1
      · exact ih k k (List.mem_cons_self _ _)
      · rcases List.mem_cons.mp hk1 with rfl | hk2
        · exact le_trans (not_lt.mp hc) (ih b b (List.mem_cons_self _ _))
        · exact ih b k (List.mem_cons_of_mem _ hk2)

theorem firstMinBy_tie (f : ℕ → ℚ) (ns : List ℕ) :
    ∀ b : ℕ, (∀ j ∈ ns, b < j) → ns.Pairwise (· < ·) →
      ∀ k ∈ b :: ns, f k = f (firstMinBy f b ns) → firstMinBy f b ns ≤ k := by
  induction ns with
  | nil =>
    intro b _ _ k hk _
    rcases List.mem_cons.mp hk with rfl | h
    · exact le_refl _
    · simp at h
  | cons n t ih =>
    intro b hb hns k hk hfk
    have ht : t.Pairwise (· < ·) := (List.pairwise_cons.mp hns).2
    by_cases hc : f n < f b
    · rw [firstMinBy_cons, if_pos hc] at hfk ⊢
      have hbt : ∀ j ∈ t, n < j := (List.pairwise_cons.mp hns).1
      rcases List.mem_cons.mp hk with rfl | hk1
      · exfalso
        have h1 : f (firstMinBy f n t) ≤ f n :=
          firstMinBy_le f t n n (List.mem_cons_self _ _)
        exact absurd hfk (ne_of_gt (lt_of_le_of_lt h1 hc))
      · exact ih n hbt ht k hk1 hfk
    · rw [firstMinBy_cons, if_neg hc] at hfk ⊢
      have hbt : ∀ j ∈ t, b < j := fun j hj => hb j (List.mem_cons_of_mem _ hj)
      rcases List.mem_cons.mp hk with rfl | hk1
      · exact ih k hbt ht k (List.mem_cons_self _ _) hfk
      · rcases List.mem_cons.mp hk1 with rfl | hk2
        · have h1 : f (firstMinBy f b t) ≤ f b :=
            firstMinBy_le f t b b (List.mem_cons_self _ _)
          have h2 : f b ≤ f k := not_lt.mp hc
          have h3 : f b = f (firstMinBy f b t) :=
            le_antisymm (le_trans h2 (le_of_eq hfk)) h1
          have h4 := ih b hbt ht b (List.mem_cons_self _ _) h3
          exact le_of_lt (lt_of_le_of_lt h4 (hb k (List.mem_cons_self _ _)))
        · exact ih b hbt ht k (List.mem_cons_of_mem _ hk2) hfk

theorem firstMaxBy_tie (f : ℕ → ℚ) (ns : List ℕ) :
    ∀ b : ℕ, (∀ j ∈ ns, b < j) → ns.Pairwise (· < ·) →
      ∀ k ∈ b :: ns, f k = f (firstMaxBy f b ns) → firstMaxBy f b ns ≤ k := by
  induction ns with
  | nil =>
    intro b _ _ k hk _
    rcases List.mem_cons.mp hk with rfl | h
    · exact le_refl _
    · simp at h
  | cons n t ih =>
    intro b hb hns k hk hfk
    have ht : t.Pairwise (· < ·) := (List.pairwise_cons.mp hns).2
    by_cases hc : f b < f n
    · rw [firstMaxBy_cons, if_pos hc] at hfk ⊢
      have hbt : ∀ j ∈ t, n < j := (List.pairwise_cons.mp hns).1
      rcases List.mem_cons.mp hk with rfl | hk1
      · exfalso
        have h1 : f n ≤ f (firstMaxBy f n t) :=
          firstMaxBy_ge f t n n (List.mem_cons_self _ _)
        exact absurd hfk (ne_of_lt (lt_of_lt_of_le hc h1))
      · exact ih n hbt ht k hk1 hfk
    · rw [firstMaxBy_cons, if_neg hc] at hfk ⊢
      have hbt : ∀ j ∈ t, b < j := fun j hj => hb j (List.mem_cons_of_mem _ hj)
      rcases List.mem_cons.mp hk with rfl | hk1
      · exact ih k hbt ht k (List.mem_cons_self _ _) hfk
      · rcases List.mem_cons.mp hk1 with rfl | hk2
        · have h1 : f b ≤ f (firstMaxBy f b t) :=
            firstMaxBy_ge f t b b (List.mem_cons_self _ _)
          have h2 : f k ≤ f b := not_lt.mp hc
          have h3 : f b = f (firstMaxBy f b t) :=
            le_antisymm h1 (le_trans (le_of_eq hfk.symm) h2)
          have h4 := ih b hbt ht b (List.mem_cons_self _ _) h3
          exact le_of_lt (lt_of_le_of_lt h4 (hb k (List.mem_cons_self _ _)))
        · exact ih b hbt ht k (List.mem_cons_of_mem _ hk2) hfk

theorem mem_candidates {S : ModelSelector} {n : ℕ} :
    n ∈ candidates S ↔ S.minN ≤ n ∧ n ≤ S.maxN := by
  simp only [candidates, List.mem_range'_1]
  omega

theorem candidates_eq (S : ModelSelector) (h : S.minN ≤ S.maxN) :
    candidates S = S.minN :: List.range' (S.minN + 1) (S.maxN - S.minN) := by
  unfold candidates
  have h1 : S.maxN + 1 - S.minN = (S.maxN - S.minN) + 1 := by omega
  rw [h1, List.range'_succ]

/-! ### The selector loops when every candidate succeeds -/

theorem rest_facts (S : ModelSelector) (hr : S.minN ≤ S.maxN) :
    (∀ m ∈ List.range' (S.minN + 1) (S.maxN - S.minN), S.minN < m ∧ m ≤ S.maxN)
      ∧ (List.range' (S.minN + 1) (S.maxN - S.minN)).Pairwise (· < ·) := by
  constructor
  · intro m hm
    have := List.mem_range'_1.mp hm
    omega
  · exact List.pairwise_lt_range' _ _

theorem refit_model (S : ModelSelector) {β : Type} (v : β) (n : ℕ) (m : HModel)
    (hm : S.fit n = some m) : refit S (Sum.inr (v, n)) = SelOutcome.retModel n := by
  simp only [refit, hm]

theorem refit_raised (S : ModelSelector) {β : Type} (v : β) (n : ℕ)
    (hm : S.fit n = none) : refit S (Sum.inr (v, n)) = SelOutcome.raised := by
  simp only [refit, hm]

theorem bicLoop_ok (S : ModelSelector) (f : ℕ → ℚ) :
    ∀ ns : List ℕ, (∀ n ∈ ns, n ≤ S.lengths.sum ∧ bicTry S n = some (f n)) →
      ∀ b : ℕ,
        selLoop (bicBody S) ns (((f b : ℚ) : WithTop ℚ), b)
          = Sum.inr (((f (firstMinBy f b ns) : ℚ) : WithTop ℚ), firstMinBy f b ns) := by
  intro ns
  induction ns with
  | nil => intro _ b; rfl
  | cons n t ih =>
    intro h b
    obtain ⟨hn, htry⟩ := h n (List.mem_cons_self _ _)
    have hrest := fun m hm => h m (List.mem_cons_of_mem _ hm)
    have hbody : bicBody S (((f b : ℚ) : WithTop ℚ), b) n
        = Sum.inr (if ((f n : ℚ) : WithTop ℚ) < ((f b : ℚ) : WithTop ℚ)
            then (((f n : ℚ) : WithTop ℚ), n) else (((f b : ℚ) : WithTop ℚ), b)) := by
      simp only [bicBody, htry, if_neg (Nat.not_lt.mpr hn)]
    by_cases hc : f n < f b
    · have hcc : ((f n : ℚ) : WithTop ℚ) < ((f b : ℚ) : WithTop ℚ) :=
        WithTop.coe_lt_coe.mpr hc
      rw [firstMinBy_cons, if_pos hc]
      simp only [selLoop, hbody, if_pos hcc]
      exact ih hrest n
    · have hcc : ¬ ((f n : ℚ) : WithTop ℚ) < ((f b : ℚ) : WithTop ℚ) :=
        fun hlt => hc (WithTop.coe_lt_coe.mp hlt)
      rw [firstMinBy_cons, if_neg hc]
      simp only [selLoop, hbody, if_neg hcc]
      exact ih hrest b

theorem dicLoop_ok (S : ModelSelector) (f : ℕ → ℚ) :
    ∀ ns : List ℕ, (∀ n ∈ ns, dicTry S n = some (f n)) →
      ∀ b : ℕ,
        selLoop (dicBody S) ns (((f b : ℚ) : WithBot ℚ), b)
          = Sum.inr (((f (firstMaxBy f b ns) : ℚ) : WithBot ℚ), firstMaxBy f b ns) := by
  intro ns
  induction ns with
  | nil => intro _ b; rfl
  | cons n t ih =>
    intro h b
    have htry := h n (List.mem_cons_self _ _)
    have hrest := fun m hm => h m (List.mem_cons_of_mem _ hm)
    have hbody : dicBody S (((f b : ℚ) : WithBot ℚ), b) n
        = Sum.inr (if ((f b : ℚ) : WithBot ℚ) < ((f n : ℚ) : WithBot ℚ)
            then (((f n : ℚ) : WithBot ℚ), n) else (((f b : ℚ) : WithBot ℚ), b)) := by
      simp only [dicBody, htry]
    by_cases hc : f b < f n
    · have hcc : ((f b : ℚ) : WithBot ℚ) < ((f n : ℚ) : WithBot ℚ) :=
        WithBot.coe_lt_coe.mpr hc
      rw [firstMaxBy_cons, if_pos hc]
      simp only [selLoop, hbody, if_pos hcc]
      exact ih hrest n
    · have hcc : ¬ ((f b : ℚ) : WithBot ℚ) < ((f n : ℚ) : WithBot ℚ) :=
        fun hlt => hc (WithBot.coe_lt_coe.mp hlt)
      rw [firstMaxBy_cons, if_neg hc]
      simp only [selLoop, hbody, if_neg hcc]
      exact ih hrest b

theorem cvLoop_ok (S : ModelSelector) (h3 : S.numSeq < 3) (f : ℕ → ℚ) :
    ∀ ns : List ℕ, (∀ n ∈ ns, (S.fit n).bind HModel.scoreSelf = some (f n)) →
      ∀ b : ℕ,
        selLoop (cvBody S) ns (((f b : ℚ) : WithBot ℚ), b)
          = Sum.inr (((f (firstMaxBy f b ns) : ℚ) : WithBot ℚ), firstMaxBy f b ns) := by
  intro ns
  induction ns with
  | nil => intro _ b; rfl
  | cons n t ih =>
    intro h b
    have htry := h n (List.mem_cons_self _ _)
    have hrest := fun m hm => h m (List.mem_cons_of_mem _ hm)
    have hbody : cvBody S (((f b : ℚ) : WithBot ℚ), b) n
        = Sum.inr (if ((f b : ℚ) : WithBot ℚ) < ((f n : ℚ) : WithBot ℚ)
            then (((f n : ℚ) : WithBot ℚ), n) else (((f b : ℚ) : WithBot ℚ), b)) := by
      simp only [cvBody, if_pos h3, htry, div_one]
    by_cases hc : f b < f n
    · have hcc : ((f b : ℚ) : WithBot ℚ) < ((f n : ℚ) : WithBot ℚ) :=
        WithBot.coe_lt_coe.mpr hc
      rw [firstMaxBy_cons, if_pos hc]
      simp only [selLoop, hbody, if_pos hcc]
      exact ih hrest n
    · have hcc : ¬ ((f b : ℚ) : WithBot ℚ) < ((f n : ℚ) : WithBot ℚ) :=
        fun hlt => hc (WithBot.coe_lt_coe.mp hlt)
      rw [firstMaxBy_cons, if_neg hc]
      simp only [selLoop, hbody, if_neg hcc]
      exact ih hrest b

/-! ### Claim C4: BIC selection under all-candidates-succeed -/

/-- The BIC score `(-2 * logL) + (n_params * log(N))` of candidate `n`,
given the oracle log-likelihoods `L`. -/
def bicVal (S : ModelSelector) (L : ℕ → ℚ) (n : ℕ) : ℚ :=
  -2 * L n + nParams S n * S.lnNS

/-- The candidate the BIC loop tracks when every candidate succeeds: lowest
BIC, first (smallest `n`) on ties. -/
def bicChoice (S : ModelSelector) (L : ℕ → ℚ) : ℕ :=
  firstMinBy (bicVal S L) S.minN (List.range' (S.minN + 1) (S.maxN - S.minN))

/-- C4: when every candidate `n` in `[min_n, max_n]` fits on the full data and
scores successfully (log-likelihood `L n`), `SelectorBIC.select` returns the
model refit on the full data with the candidate of lowest
`BIC(n) = -2 L n + (n² + 2 n m − 1) ln N`, smallest `n` winning ties. -/
theorem claim_C4 (S : ModelSelector) (L : ℕ → ℚ)
    (hr : S.minN ≤ S.maxN)
    (hN : ∀ n, S.minN ≤ n → n ≤ S.maxN → n ≤ S.lengths.sum)
    (hfit : ∀ n, S.minN ≤ n → n ≤ S.maxN →
      ∃ m, S.fit n = some m ∧ m.scoreSelf = some (L n)) :
    SelectorBIC.select S = SelOutcome.retModel (bicChoice S L)
      ∧ S.minN ≤ bicChoice S L ∧ bicChoice S L ≤ S.maxN
      ∧ (∀ k, S.minN ≤ k → k ≤ S.maxN →
          bicVal S L (bicChoice S L) ≤ bicVal S L k)
      ∧ (∀ k, S.minN ≤ k → k ≤ S.maxN →
          bicVal S L k = bicVal S L (bicChoice S L) → bicChoice S L ≤ k) := by
  have htry : ∀ n, S.minN ≤ n → n ≤ S.maxN → bicTry S n = some (bicVal S L n) := by
    intro n h1 h2
    obtain ⟨m, hm, hs⟩ := hfit n h1 h2
    simp [bicTry, hm, hs, bicVal]
  have hrb := (rest_facts S hr).1
  have hrp := (rest_facts S hr).2
  have hhyp : ∀ n ∈ List.range' (S.minN + 1) (S.maxN - S.minN),
      n ≤ S.lengths.sum ∧ bicTry S n = some (bicVal S L n) := by
    intro n hn
    obtain ⟨h1, h2⟩ := hrb n hn
    exact ⟨hN n (le_of_lt h1) h2, htry n (le_of_lt h1) h2⟩
  have hcdef : bicChoice S L
      = firstMinBy (bicVal S L) S.minN (List.range' (S.minN + 1) (S.maxN - S.minN)) := rfl
  have hc_bounds : S.minN ≤ bicChoice S L ∧ bicChoice S L ≤ S.maxN := by
    rcases List.mem_cons.mp
        (hcdef ▸ firstMinBy_mem (bicVal S L) (List.range' (S.minN + 1) (S.maxN - S.minN)) S.minN)
      with h | h
    · exact ⟨le_of_eq h.symm, h ▸ hr⟩
    · obtain ⟨h1, h2⟩ := hrb _ h
      exact ⟨le_of_lt h1, h2⟩
  have hsel : SelectorBIC.select S = SelOutcome.retModel (bicChoice S L) := by
    unfold SelectorBIC.select
    rw [candidates_eq S hr]
    have hn0 : S.minN ≤ S.lengths.sum := hN S.minN le_rfl hr
    have hbody0 : bicBody S ((⊤ : WithTop ℚ), 2) S.minN
        = Sum.inr (((bicVal S L S.minN : ℚ) : WithTop ℚ), S.minN) := by
      simp only [bicBody, htry S.minN le_rfl hr, if_neg (Nat.not_lt.mpr hn0)]
      simp [WithTop.coe_lt_top]
    simp only [selLoop, hbody0]
    rw [bicLoop_ok S (bicVal S L) (List.range' (S.minN + 1) (S.maxN - S.minN)) hhyp S.minN,
      ← hcdef]
    obtain ⟨m, hm, _⟩ := hfit _ hc_bounds.1 hc_bounds.2
    exact refit_model S _ _ m hm
  refine ⟨hsel, hc_bounds.1, hc_bounds.2, ?_, ?_⟩
  · intro k hk1 hk2
    have hk : k ∈ S.minN :: List.range' (S.minN + 1) (S.maxN - S.minN) := by
      rw [← candidates_eq S hr]
      exact mem_candidates.mpr ⟨hk1, hk2⟩
    exact firstMinBy_le (bicVal S L) _ S.minN k hk
  · intro k hk1 hk2 hfk
    have hk : k ∈ S.minN :: List.range' (S.minN + 1) (S.maxN - S.minN) := by
      rw [← candidates_eq S hr]
      exact mem_candidates.mpr ⟨hk1, hk2⟩
    exact firstMinBy_tie (bicVal S L) _ S.minN (fun j hj => (hrb j hj).1) hrp k hk hfk

/-- Log-likelihood oracle for the C4 witness: `L n = -n`. -/
def L4 : ℕ → ℚ := fun n => -(n : ℚ)

/-- Concrete selector state for the C4 witness: range `[2, 3]`, five
observation vectors of one feature, `ln N` entering as `1`, every fit
succeeding with log-likelihood `L4 n`. -/
def S4 : ModelSelector :=
  { minN := 2, maxN := 3, verbose := false, lengths := [5], nSamples := 5,
    nFeatures := 1, lnNS := 1,
    fit := fun n => some { scoreSelf := some (L4 n), scoreWord := fun _ => none },
    otherWords := [], numSeq := 1, cvFold := fun _ _ => none }

/-- Witness for C4: `BIC(2) = 11 < 20 = BIC(3)`, so candidate 2 is chosen and
refit. -/
theorem claim_C4_witness : SelectorBIC.select S4 = SelOutcome.retModel 2 := by
  have h := claim_C4 S4 L4 (by decide)
    (by intro n h1 h2
        have h2' : n ≤ 3 := h2
        show n ≤ 5
        omega)
    (by intro n h1 h2; exact ⟨_, rfl, rfl⟩)
  have hc : bicChoice S4 L4 = 2 := by
    norm_num [bicChoice, firstMinBy, List.range', bicVal, nParams, S4, L4]
  rw [hc] at h
  exact h.1

/-! ### Claim C5: DIC selection under all-candidates-succeed -/

theorem optSum_map (g : Word → Option ℚ) (h : Word → ℚ) :
    ∀ ws : List Word, (∀ w ∈ ws, g w = some (h w)) →
      optSum (ws.map g) = some ((ws.map h).sum) := by
  intro ws
  induction ws with
  | nil => intro _; rfl
  | cons w t ih =>
    intro hall
    have hw := hall w (List.mem_cons_self _ _)
    have ht := ih fun x hx => hall x (List.mem_cons_of_mem _ hx)
    simp only [List.map_cons, optSum, hw, ht, List.sum_cons]

/-- The DIC score `logL - anti_scores / len(anti_words)` of candidate `n`,
given the oracle self log-likelihoods `L` and anti log-likelihoods `A`. -/
def dicVal (S : ModelSelector) (L : ℕ → ℚ) (A : ℕ → Word → ℚ) (n : ℕ) : ℚ :=
  L n - ((S.otherWords.map (A n)).sum) / (S.otherWords.length : ℚ)

/-- The candidate the DIC loop tracks when every candidate succeeds: highest
DIC, first (smallest `n`) on ties. -/
def dicChoice (S : ModelSelector) (L : ℕ → ℚ) (A : ℕ → Word → ℚ) : ℕ :=
  firstMaxBy (dicVal S L A) S.minN (List.range' (S.minN + 1) (S.maxN - S.minN))

theorem dicTry_eq (S : ModelSelector) (L : ℕ → ℚ) (A : ℕ → Word → ℚ) (n : ℕ)
    (hW : S.otherWords ≠ [])
    (hm : ∃ m, S.fit n = some m ∧ m.scoreSelf = some (L n)
      ∧ ∀ w ∈ S.otherWords, m.scoreWord w = some (A n w)) :
    dicTry S n = some (dicVal S L A n) := by
  obtain ⟨m, hf, hs, ha⟩ := hm
  have hsum := optSum_map m.scoreWord (A n) S.otherWords ha
  simp only [dicTry, hf, hs, hsum]
  rw [if_neg (fun hz => hW (List.length_eq_zero.mp hz))]
  rfl

/-- C5: when every candidate `n` fits once on the word's full data, scores
`L n` on it, and scores `A n w` on every other word `w`'s full data,
`SelectorDIC.select` returns the model refit on the full data with the
candidate of highest `DIC(n) = L n − mean_w (A n w)`, smallest `n` winning
ties. -/
theorem claim_C5 (S : ModelSelector) (L : ℕ → ℚ) (A : ℕ → Word → ℚ)
    (hr : S.minN ≤ S.maxN) (hW : S.otherWords ≠ [])
    (hfit : ∀ n, S.minN ≤ n → n ≤ S.maxN →
      ∃ m, S.fit n = some m ∧ m.scoreSelf = some (L n)
        ∧ ∀ w ∈ S.otherWords, m.scoreWord w = some (A n w)) :
    SelectorDIC.select S = SelOutcome.retModel (dicChoice S L A)
      ∧ S.minN ≤ dicChoice S L A ∧ dicChoice S L A ≤ S.maxN
      ∧ (∀ k, S.minN ≤ k → k ≤ S.maxN →
          dicVal S L A k ≤ dicVal S L A (dicChoice S L A))
      ∧ (∀ k, S.minN ≤ k → k ≤ S.maxN →
          dicVal S L A k = dicVal S L A (dicChoice S L A) → dicChoice S L A ≤ k) := by
  have htry : ∀ n, S.minN ≤ n → n ≤ S.maxN → dicTry S n = some (dicVal S L A n) :=
    fun n h1 h2 => dicTry_eq S L A n hW (hfit n h1 h2)
  have hrb := (rest_facts S hr).1
  have hrp := (rest_facts S hr).2
  have hhyp : ∀ n ∈ List.range' (S.minN + 1) (S.maxN - S.minN),
      dicTry S n = some (dicVal S L A n) := by
    intro n hn
    obtain ⟨h1, h2⟩ := hrb n hn
    exact htry n (le_of_lt h1) h2
  have hcdef : dicChoice S L A
      = firstMaxBy (dicVal S L A) S.minN (List.range' (S.minN + 1) (S.maxN - S.minN)) := rfl
  have hc_bounds : S.minN ≤ dicChoice S L A ∧ dicChoice S L A ≤ S.maxN := by
    rcases List.mem_cons.mp
        (hcdef ▸ firstMaxBy_mem (dicVal S L A) (List.range' (S.minN + 1) (S.maxN - S.minN)) S.minN)
      with h | h
    · exact ⟨le_of_eq h.symm, h ▸ hr⟩
    · obtain ⟨h1, h2⟩ := hrb _ h
      exact ⟨le_of_lt h1, h2⟩
  have hsel : SelectorDIC.select S = SelOutcome.retModel (dicChoice S L A) := by
    unfold SelectorDIC.select
    rw [candidates_eq S hr]
    have hbody0 : dicBody S ((⊥ : WithBot ℚ), 2) S.minN
        = Sum.inr (((dicVal S L A S.minN : ℚ) : WithBot ℚ), S.minN) := by
      simp only [dicBody, htry S.minN le_rfl hr]
      simp [WithBot.bot_lt_coe]
    simp only [selLoop, hbody0]
    rw [dicLoop_ok S (dicVal S L A) (List.range' (S.minN + 1) (S.maxN - S.minN)) hhyp S.minN,
      ← hcdef]
    obtain ⟨m, hm, _⟩ := hfit _ hc_bounds.1 hc_bounds.2
    exact refit_model S _ _ m hm
  refine ⟨hsel, hc_bounds.1, hc_bounds.2, ?_, ?_⟩
  · intro k hk1 hk2
    have hk : k ∈ S.minN :: List.range' (S.minN + 1) (S.maxN - S.minN) := by
      rw [← candidates_eq S hr]
      exact mem_candidates.mpr ⟨hk1, hk2⟩
    exact firstMaxBy_ge (dicVal S L A) _ S.minN k hk
  · intro k hk1 hk2 hfk
    have hk : k ∈ S.minN :: List.range' (S.minN + 1) (S.maxN - S.minN) := by
      rw [← candidates_eq S hr]
      exact mem_candidates.mpr ⟨hk1, hk2⟩
    exact firstMaxBy_tie (dicVal S L A) _ S.minN (fun j hj => (hrb j hj).1) hrp k hk hfk

/-- Concrete selector state for the C5 witness: one other word (code 7),
every candidate fitting with self log-likelihood `n` and anti log-likelihood
`0`, so `DIC(n) = n` and candidate 3 wins. -/
def S5 : ModelSelector :=
  { minN := 2, maxN := 3, verbose := false, lengths := [4], nSamples := 4,
    nFeatures := 1, lnNS := 1,
    fit := fun n => some { scoreSelf := some ((n : ℚ)), scoreWord := fun _ => some 0 },
    otherWords := [7], numSeq := 1, cvFold := fun _ _ => none }

def L5 : ℕ → ℚ := fun n => (n : ℚ)

def A5 : ℕ → Word → ℚ := fun _ _ => 0

/-- Witness for C5: `DIC(2) = 2 < 3 = DIC(3)`, so candidate 3 is chosen and
refit. -/
theorem claim_C5_witness : SelectorDIC.select S5 = SelOutcome.retModel 3 := by
  have h := claim_C5 S5 L5 A5 (by decide) (by decide)
    (by intro n h1 h2; exact ⟨_, rfl, rfl, fun w hw => rfl⟩)
  have hc : dicChoice S5 L5 A5 = 3 := by
    norm_num [dicChoice, firstMaxBy, List.range', dicVal, S5, L5, A5]
  rw [hc] at h
  exact h.1

/-! ### Claim C9: CV selection with fewer than 3 sequences -/

/-- The candidate the CV loop tracks in the unfolded (fewer than 3 sequences)
path when every candidate succeeds: highest full-data log-likelihood, first
(smallest `n`) on ties. -/
def cvChoice (S : ModelSelector) (L : ℕ → ℚ) : ℕ :=
  firstMaxBy L S.minN (List.range' (S.minN + 1) (S.maxN - S.minN))

theorem cvBody_cvFold_indep (S : ModelSelector) (g : ℕ → ℕ → Option ℚ)
    (h3 : S.numSeq < 3) (st : WithBot ℚ × ℕ) (n : ℕ) :
    cvBody { S with cvFold := g } st n = cvBody S st n := by
  have h3' : ({ S with cvFold := g } : ModelSelector).numSeq < 3 := h3
  simp only [cvBody, if_pos h3, if_pos h3']

theorem selLoop_congr {σ : Type} (b1 b2 : σ → ℕ → SelOutcome ⊕ σ)
    (h : ∀ st n, b1 st n = b2 st n) :
    ∀ (ns : List ℕ) (st : σ), selLoop b1 ns st = selLoop b2 ns st := by
  intro ns
  induction ns with
  | nil => intro st; rfl
  | cons n t ih =>
    intro st
    simp only [selLoop, h st n]
    cases b2 st n with
    | inl o => rfl
    | inr st' => exact ih st'

theorem refit_update (S : ModelSelector) (g : ℕ → ℕ → Option ℚ)
    {β : Type} (r : SelOutcome ⊕ (β × ℕ)) :
    refit { S with cvFold := g } r = refit S r := by
  rcases r with o | ⟨v, n⟩
  · rfl
  · rfl

/-- C9: with fewer than 3 training sequences, `SelectorCV.select` performs no
folding — the result is the same for every fold oracle — and scores each
candidate by a single fit-and-score on the full data, returning the model
refit with the candidate of highest such log-likelihood. -/
theorem claim_C9 (S : ModelSelector) (L : ℕ → ℚ)
    (h3 : S.numSeq < 3) (hr : S.minN ≤ S.maxN)
    (hfit : ∀ n, S.minN ≤ n → n ≤ S.maxN →
      (S.fit n).bind HModel.scoreSelf = some (L n)) :
    SelectorCV.select S = SelOutcome.retModel (cvChoice S L)
      ∧ S.minN ≤ cvChoice S L ∧ cvChoice S L ≤ S.maxN
      ∧ (∀ k, S.minN ≤ k → k ≤ S.maxN → L k ≤ L (cvChoice S L))
      ∧ (∀ k, S.minN ≤ k → k ≤ S.maxN → L k = L (cvChoice S L) → cvChoice S L ≤ k)
      ∧ (∀ g, SelectorCV.select { S with cvFold := g } = SelectorCV.select S) := by
  have hrb := (rest_facts S hr).1
  have hrp := (rest_facts S hr).2
  have hhyp : ∀ n ∈ List.range' (S.minN + 1) (S.maxN - S.minN),
      (S.fit n).bind HModel.scoreSelf = some (L n) := by
    intro n hn
    obtain ⟨h1, h2⟩ := hrb n hn
    exact hfit n (le_of_lt h1) h2
  have hcdef : cvChoice S L
      = firstMaxBy L S.minN (List.range' (S.minN + 1) (S.maxN - S.minN)) := rfl
  have hc_bounds : S.minN ≤ cvChoice S L ∧ cvChoice S L ≤ S.maxN := by
    rcases List.mem_cons.mp
        (hcdef ▸ firstMaxBy_mem L (List.range' (S.minN + 1) (S.maxN - S.minN)) S.minN)
      with h | h
    · exact ⟨le_of_eq h.symm, h ▸ hr⟩
    · obtain ⟨h1, h2⟩ := hrb _ h
      exact ⟨le_of_lt h1, h2⟩
  have hsel : SelectorCV.select S = SelOutcome.retModel (cvChoice S L) := by
    unfold SelectorCV.select
    rw [candidates_eq S hr]
    have hbody0 : cvBody S ((⊥ : WithBot ℚ), 2) S.minN
        = Sum.inr (((L S.minN : ℚ) : WithBot ℚ), S.minN) := by
      simp only [cvBody, if_pos h3, hfit S.minN le_rfl hr, div_one]
      simp [WithBot.bot_lt_coe]
    simp only [selLoop, hbody0]
    rw [cvLoop_ok S h3 L (List.range' (S.minN + 1) (S.maxN - S.minN)) hhyp S.minN,
      ← hcdef]
    obtain ⟨m, hm, _⟩ := Option.bind_eq_some.mp (hfit _ hc_bounds.1 hc_bounds.2)
    exact refit_model S _ _ m hm
  refine ⟨hsel, hc_bounds.1, hc_bounds.2, ?_, ?_, ?_⟩
  · intro k hk1 hk2
    have hk : k ∈ S.minN :: List.range' (S.minN + 1) (S.maxN - S.minN) := by
      rw [← candidates_eq S hr]
      exact mem_candidates.mpr ⟨hk1, hk2⟩
    exact firstMaxBy_ge L _ S.minN k hk
  · intro k hk1 hk2 hfk
    have hk : k ∈ S.minN :: List.range' (S.minN + 1) (S.maxN - S.minN) := by
      rw [← candidates_eq S hr]
      exact mem_candidates.mpr ⟨hk1, hk2⟩
    exact firstMaxBy_tie L _ S.minN (fun j hj => (hrb j hj).1) hrp k hk hfk
  · intro g
    unfold SelectorCV.select
    rw [selLoop_congr (cvBody { S with cvFold := g }) (cvBody S)
      (fun st n => cvBody_cvFold_indep S g h3 st n), refit_update]
    rfl

/-- Concrete selector state for the C9 witness: exactly 2 training sequences,
every candidate fitting with full-data log-likelihood `n`; the fold oracle is
deliberately junk to show it is never consulted. -/
def S9 : ModelSelector :=
  { minN := 2, maxN := 3, verbose := false, lengths := [3, 4], nSamples := 7,
    nFeatures := 1, lnNS := 1,
    fit := fun n => some { scoreSelf := some ((n : ℚ)), scoreWord := fun _ => none },
    otherWords := [], numSeq := 2, cvFold := fun _ _ => some 99 }

/-- Witness for C9: with 2 sequences the unfolded path runs and candidate 3
(log-likelihood 3 beating 2) is chosen and refit. -/
theorem claim_C9_witness : SelectorCV.select S9 = SelOutcome.retModel 3 := by
  have h := claim_C9 S9 (fun n => (n : ℚ)) (by decide) (by decide)
    (by intro n h1 h2; rfl)
  have hc : cvChoice S9 (fun n => (n : ℚ)) = 3 := by
    norm_num [cvChoice, firstMaxBy, List.range', S9]
  rw [hc] at h
  exact h.1

/-! ### Claim C10: BIC and candidates exceeding the observation count -/

theorem bicBody_inl (S : ModelSelector) (st : WithTop ℚ × ℕ) (n : ℕ)
    (o : SelOutcome) (h : bicBody S st n = Sum.inl o) : o = SelOutcome.retNone := by
  unfold bicBody at h
  split at h
  · injection h with h1; exact h1.symm
  · split at h
    · simp at h
    · split at h
      · injection h with h1; exact h1.symm
      · simp at h

theorem bicLoop_hits (S : ModelSelector) :
    ∀ ns : List ℕ, (∃ n ∈ ns, S.lengths.sum < n) →
      ∀ st, selLoop (bicBody S) ns st = Sum.inl SelOutcome.retNone := by
  intro ns
  induction ns with
  | nil => intro h; simp at h
  | cons n t ih =>
    intro h st
    by_cases hn : S.lengths.sum < n
    · have hb : bicBody S st n = Sum.inl SelOutcome.retNone := by
        simp only [bicBody, if_pos hn]
      simp only [selLoop, hb]
    · have ht : ∃ m ∈ t, S.lengths.sum < m := by
        rcases h with ⟨m, hm, hlt⟩
        rcases List.mem_cons.mp hm with rfl | hmt
        · exact absurd hlt hn
        · exact ⟨m, hmt, hlt⟩
      cases hb : bicBody S st n with
      | inl o =>
        have ho : o = SelOutcome.retNone := bicBody_inl S st n o hb
        simp only [selLoop, hb, ho]
      | inr st' =>
        simp only [selLoop, hb]
        exact ih ht st'

/-- C10: whenever some candidate in the (nonempty) range exceeds
`sum(self.lengths)` — in particular whenever `min_n` does — `SelectorBIC.select`
returns `None`, for every fit oracle and verbose setting alike: the `return
None` fires before any fit of that candidate is attempted. -/
theorem claim_C10 (S : ModelSelector) (hr : S.minN ≤ S.maxN)
    (hbig : S.lengths.sum < S.maxN) :
    SelectorBIC.select S = SelOutcome.retNone := by
  have hmem : S.maxN ∈ candidates S := mem_candidates.mpr ⟨hr, le_refl _⟩
  unfold SelectorBIC.select
  rw [bicLoop_hits S (candidates S) ⟨S.maxN, hmem, hbig⟩ _]
  rfl

/-- Concrete selector state for the C10 witness: `min_n = 4` exceeds the
total observation count 3. -/
def S10 : ModelSelector :=
  { minN := 4, maxN := 5, verbose := false, lengths := [3], nSamples := 3,
    nFeatures := 1, lnNS := 1,
    fit := fun _ => some { scoreSelf := some 0, scoreWord := fun _ => none },
    otherWords := [], numSeq := 1, cvFold := fun _ _ => none }

/-- Witness for C10: selection reports `None` although every fit would
succeed. -/
theorem claim_C10_witness : SelectorBIC.select S10 = SelOutcome.retNone :=
  claim_C10 S10 (by decide) (by decide)

/-! ### Claim C6: failed candidates in SelectorBIC / SelectorDIC -/

/-- Concrete selector state for C6: candidate 2's scoring raises (fit
succeeds, so the final refit works), candidate 3 fits and scores `-5`, giving
`BIC(3) = 24 > 0`. -/
def S6 : ModelSelector :=
  { minN := 2, maxN := 3, verbose := false, lengths := [9], nSamples := 9,
    nFeatures := 1, lnNS := 1,
    fit := fun n =>
      if n = 2 then some { scoreSelf := none, scoreWord := fun _ => none }
      else some { scoreSelf := some (-5), scoreWord := fun _ => none },
    otherWords := [], numSeq := 1, cvFold := fun _ _ => none }

/-- C6 counterexample: candidate 2 fails to score, candidate 3 succeeds with
`BIC(3) = 24`, yet `SelectorBIC.select` picks candidate 2 — the failed
candidate's sentinel score 0 won the comparison, so failures are not excluded
from it. -/
theorem claim_C6_counterexample :
    SelectorBIC.select S6 = SelOutcome.retModel 2
      ∧ (S6.fit 2).bind HModel.scoreSelf = none
      ∧ bicTry S6 3 = some 24 := by
  have h2 : bicTry S6 2 = none := rfl
  have h3 : bicTry S6 3 = some 24 := by norm_num [bicTry, S6, nParams]
  have hb2 : bicBody S6 ((⊤ : WithTop ℚ), 2) 2 = Sum.inr (((0 : ℚ) : WithTop ℚ), 2) := by
    simp only [bicBody, h2]
    norm_num [S6, WithTop.coe_lt_top]
  have hb3 : bicBody S6 (((0 : ℚ) : WithTop ℚ), 2) 3 = Sum.inr (((0 : ℚ) : WithTop ℚ), 2) := by
    simp only [bicBody, h3]
    norm_num [S6, WithTop.coe_lt_coe]
  have hcand : candidates S6 = [2, 3] := rfl
  refine ⟨?_, rfl, h3⟩
  unfold SelectorBIC.select
  rw [hcand]
  simp only [selLoop, hb2, hb3]
  exact refit_model S6 _ 2 _ rfl

/-- C6 amended: with `verbose` off (the default), a candidate whose fit or
scoring raises is *not* excluded: its `BIC_score`/`DIC_score` stays at the
sentinel 0, which still takes part in the `best_score` comparison — the
candidate is adopted whenever 0 beats the current best.  (With `verbose` on,
the mis-indented handler instead returns `None` at the first failure.)  The
failure itself never raises past the loop. -/
theorem claim_C6 (S : ModelSelector) (st : WithTop ℚ × ℕ) (st' : WithBot ℚ × ℕ)
    (n : ℕ) (hv : S.verbose = false) (hn : n ≤ S.lengths.sum) :
    (bicTry S n = none → bicBody S st n
        = Sum.inr (if ((0 : ℚ) : WithTop ℚ) < st.1
            then (((0 : ℚ) : WithTop ℚ), n) else st))
      ∧ (dicTry S n = none → dicBody S st' n
        = Sum.inr (if st'.1 < ((0 : ℚ) : WithBot ℚ)
            then (((0 : ℚ) : WithBot ℚ), n) else st')) := by
  constructor
  · intro h
    simp only [bicBody, h]
    rw [if_neg (Nat.not_lt.mpr hn)]
    simp [hv]
  · intro h
    simp only [dicBody, h]
    simp [hv]

/-- Witness for the C6 amended claim at `S6`, candidate 2, initial loop
states. -/
theorem claim_C6_witness :
    (bicTry S6 2 = none → bicBody S6 ((⊤ : WithTop ℚ), 2) 2
        = Sum.inr (if ((0 : ℚ) : WithTop ℚ) < ((⊤ : WithTop ℚ), 2).1
            then (((0 : ℚ) : WithTop ℚ), 2) else ((⊤ : WithTop ℚ), 2)))
      ∧ (dicTry S6 2 = none → dicBody S6 ((⊥ : WithBot ℚ), 2) 2
        = Sum.inr (if ((⊥ : WithBot ℚ), 2).1 < ((0 : ℚ) : WithBot ℚ)
            then (((0 : ℚ) : WithBot ℚ), 2) else ((⊥ : WithBot ℚ), 2))) :=
  claim_C6 S6 ((⊤ : WithTop ℚ), 2) ((⊥ : WithBot ℚ), 2) 2 (by decide) (by decide)

/-! ### Claim C7: every candidate failing to fit -/

/-- Concrete selector state for C7: every fit raises, range `[2, 3]`,
`verbose` off. -/
def S7 : ModelSelector :=
  { minN := 2, maxN := 3, verbose := false, lengths := [9], nSamples := 9,
    nFeatures := 1, lnNS := 1, fit := fun _ => none,
    otherWords := [], numSeq := 1, cvFold := fun _ _ => none }

/-- C7 counterexample: with every fit failing, `SelectorBIC.select` does not
report an explicit no-model result (`None`): the final refit re-raises the
fit failure, so the caller sees an escaping exception. -/
theorem claim_C7_counterexample :
    S7.fit 2 = none ∧ S7.fit 3 = none
      ∧ SelectorBIC.select S7 = SelOutcome.raised
      ∧ SelOutcome.raised ≠ SelOutcome.retNone := by
  have h2 : bicTry S7 2 = none := rfl
  have h3 : bicTry S7 3 = none := rfl
  have hb2 : bicBody S7 ((⊤ : WithTop ℚ), 2) 2 = Sum.inr (((0 : ℚ) : WithTop ℚ), 2) := by
    simp only [bicBody, h2]
    norm_num [S7, WithTop.coe_lt_top]
  have hb3 : bicBody S7 (((0 : ℚ) : WithTop ℚ), 2) 3 = Sum.inr (((0 : ℚ) : WithTop ℚ), 2) := by
    simp only [bicBody, h3]
    norm_num [S7, WithTop.coe_lt_coe]
  have hcand : candidates S7 = [2, 3] := rfl
  refine ⟨rfl, rfl, ?_, by decide⟩
  unfold SelectorBIC.select
  rw [hcand]
  simp only [selLoop, hb2, hb3]
  exact refit_raised S7 _ 2 rfl

theorem bicLoop_fail (S : ModelSelector) (hv : S.verbose = false) :
    ∀ ns : List ℕ, (∀ n ∈ ns, n ≤ S.lengths.sum ∧ bicTry S n = none) →
      ∀ b : ℕ, selLoop (bicBody S) ns (((0 : ℚ) : WithTop ℚ), b)
        = Sum.inr (((0 : ℚ) : WithTop ℚ), b) := by
  intro ns
  induction ns with
  | nil => intro _ b; rfl
  | cons n t ih =>
    intro h b
    obtain ⟨hn, htry⟩ := h n (List.mem_cons_self _ _)
    have hrest := fun m hm => h m (List.mem_cons_of_mem _ hm)
    have hb : bicBody S (((0 : ℚ) : WithTop ℚ), b) n
        = Sum.inr (((0 : ℚ) : WithTop ℚ), b) := by
      simp only [bicBody, htry]
      rw [if_neg (Nat.not_lt.mpr hn)]
      simp [hv]
    simp only [selLoop, hb]
    exact ih hrest b

theorem cvFoldLoop_fail (T : ModelSelector) (n : ℕ)
    (hfold : ∀ f, T.cvFold n f = none) :
    cvFoldLoop T n = if T.verbose then none else some 0 := by
  have hr3 : List.range 3 = [0, 1, 2] := rfl
  rw [cvFoldLoop, hr3]
  cases hv : T.verbose
  · simp [hfold 0, hfold 1, hfold 2, hv]
  · simp [hfold 0, hv]

theorem cvLoop_fail (T : ModelSelector) (hv : T.verbose = false)
    (h3 : ¬ T.numSeq < 3) :
    ∀ ns : List ℕ, (∀ n ∈ ns, ∀ f, T.cvFold n f = none) →
      ∀ b : ℕ, selLoop (cvBody T) ns (((0 : ℚ) : WithBot ℚ), b)
        = Sum.inr (((0 : ℚ) : WithBot ℚ), b) := by
  intro ns
  induction ns with
  | nil => intro _ b; rfl
  | cons n t ih =>
    intro h b
    have hfl : cvFoldLoop T n = some 0 := by
      rw [cvFoldLoop_fail T n (h n (List.mem_cons_self _ _)), hv]
      rfl
    have hrest := fun m hm => h m (List.mem_cons_of_mem _ hm)
    have hb : cvBody T (((0 : ℚ) : WithBot ℚ), b) n
        = Sum.inr (((0 : ℚ) : WithBot ℚ), b) := by
      simp only [cvBody, hfl]
      rw [if_neg h3]
      norm_num
    simp only [selLoop, hb]
    exact ih hrest b

/-- C7 amended: when every candidate in a nonempty range fails to fit (and no
candidate exceeds the observation count), neither `SelectorBIC.select` nor
`SelectorCV.select` (with 3 or more sequences, all folds failing too) returns
a fitted model or falls back to a default state count — but the "no viable
model" outcome is an explicit `None` only in verbose mode; with `verbose`
off the loop finishes with sentinel scores and the final refit re-raises the
fit failure, so the caller sees an exception instead. -/
theorem claim_C7 (S T : ModelSelector)
    (hSr : S.minN ≤ S.maxN) (hSN : S.maxN ≤ S.lengths.sum)
    (hSfit : ∀ n, S.fit n = none)
    (hTr : T.minN ≤ T.maxN) (hT3 : 3 ≤ T.numSeq)
    (hTfit : ∀ n, T.fit n = none) (hTfold : ∀ n f, T.cvFold n f = none) :
    SelectorBIC.select S = (if S.verbose then SelOutcome.retNone else SelOutcome.raised)
      ∧ SelectorCV.select T = (if T.verbose then SelOutcome.retNone else SelOutcome.raised) := by
  have hSt : ∀ n, bicTry S n = none := by
    intro n
    simp [bicTry, hSfit n]
  have hT3' : ¬ T.numSeq < 3 := Nat.not_lt.mpr hT3
  constructor
  · unfold SelectorBIC.select
    rw [candidates_eq S hSr]
    have hn0 : ¬ S.lengths.sum < S.minN := Nat.not_lt.mpr (le_trans hSr hSN)
    cases hv : S.verbose
    · have hb0 : bicBody S ((⊤ : WithTop ℚ), 2) S.minN
          = Sum.inr (((0 : ℚ) : WithTop ℚ), S.minN) := by
        simp only [bicBody, hSt S.minN]
        rw [if_neg hn0]
        simp [hv, WithTop.coe_lt_top]
      simp only [selLoop, hb0]
      rw [bicLoop_fail S hv (List.range' (S.minN + 1) (S.maxN - S.minN))
        (by
          intro m hm
          have := List.mem_range'_1.mp hm
          exact ⟨by omega, hSt m⟩)
        S.minN]
      rw [refit_raised S _ S.minN (hSfit S.minN)]
      rfl
    · have hb0 : bicBody S ((⊤ : WithTop ℚ), 2) S.minN = Sum.inl SelOutcome.retNone := by
        simp only [bicBody, hSt S.minN]
        rw [if_neg hn0]
        simp [hv]
      simp only [selLoop, hb0]
      rfl
  · unfold SelectorCV.select
    rw [candidates_eq T hTr]
    cases hv : T.verbose
    · have hfl : cvFoldLoop T T.minN = some 0 := by
        rw [cvFoldLoop_fail T T.minN (hTfold T.minN), hv]
        rfl
      have hb0 : cvBody T ((⊥ : WithBot ℚ), 2) T.minN
          = Sum.inr (((0 : ℚ) : WithBot ℚ), T.minN) := by
        simp only [cvBody, hfl]
        rw [if_neg hT3']
        norm_num [WithBot.bot_lt_coe]
      simp only [selLoop, hb0]
      rw [cvLoop_fail T hv hT3' (List.range' (T.minN + 1) (T.maxN - T.minN))
        (fun m _ => hTfold m) T.minN]
      rw [refit_raised T _ T.minN (hTfit T.minN)]
      rfl
    · have hfl : cvFoldLoop T T.minN = none := by
        rw [cvFoldLoop_fail T T.minN (hTfold T.minN), hv]
        rfl
      have hb0 : cvBody T ((⊥ : WithBot ℚ), 2) T.minN = Sum.inl SelOutcome.retNone := by
        simp only [cvBody, hfl]
        rw [if_neg hT3']
      simp only [selLoop, hb0]
      rfl

/-- Concrete selector state for the C7 witness's CV half: 3 sequences, every
fold and every fit raising, `verbose` off. -/
def T7 : ModelSelector :=
  { minN := 2, maxN := 3, verbose := false, lengths := [2, 2, 2], nSamples := 6,
    nFeatures := 1, lnNS := 1, fit := fun _ => none,
    otherWords := [], numSeq := 3, cvFold := fun _ _ => none }

/-- Witness for the C7 amended claim at `S7` (BIC) and `T7` (CV). -/
theorem claim_C7_witness :
    SelectorBIC.select S7 = (if S7.verbose then SelOutcome.retNone else SelOutcome.raised)
      ∧ SelectorCV.select T7 = (if T7.verbose then SelOutcome.retNone else SelOutcome.raised) :=
  claim_C7 S7 T7 (by decide) (by decide) (fun _ => rfl)
    (by decide) (by decide) (fun _ => rfl) (fun _ _ => rfl)

/-! ### Claim C8: failed folds in SelectorCV -/

/-- Concrete selector state for C8: 3 sequences; candidate 2's folds give 6,
raise, raise (average `6/3 = 2` over the failed folds); candidate 3's folds
all succeed at `-3` each (average `-3`); every full-data fit succeeds. -/
def S8 : ModelSelector :=
  { minN := 2, maxN := 3, verbose := false, lengths := [2, 2, 2], nSamples := 6,
    nFeatures := 1, lnNS := 1,
    fit := fun _ => some { scoreSelf := some 0, scoreWord := fun _ => none },
    otherWords := [], numSeq := 3,
    cvFold := fun n f =>
      if n = 2 then (if f = 0 then some 6 else none) else some (-3) }

/-- C8 counterexample: candidate 2 has two failed folds, yet it is not
treated as unusable — its score is the one successful fold divided by 3, it
stays in the comparison, and it wins the selection. -/
theorem claim_C8_counterexample :
    SelectorCV.select S8 = SelOutcome.retModel 2
      ∧ S8.cvFold 2 1 = none ∧ S8.cvFold 2 2 = none
      ∧ S8.cvFold 3 0 = some (-3) ∧ S8.cvFold 3 1 = some (-3)
      ∧ S8.cvFold 3 2 = some (-3) := by
  have hr3 : List.range 3 = [0, 1, 2] := rfl
  have hf2 : cvFoldLoop S8 2 = some 6 := by
    rw [cvFoldLoop, hr3]
    norm_num [S8]
  have hf3 : cvFoldLoop S8 3 = some (-9) := by
    rw [cvFoldLoop, hr3]
    norm_num [S8]
  have hns : ¬ S8.numSeq < 3 := by decide
  have hb2 : cvBody S8 ((⊥ : WithBot ℚ), 2) 2 = Sum.inr (((2 : ℚ) : WithBot ℚ), 2) := by
    simp only [cvBody, hf2]
    rw [if_neg hns]
    norm_num [WithBot.bot_lt_coe]
  have hb3 : cvBody S8 (((2 : ℚ) : WithBot ℚ), 2) 3 = Sum.inr (((2 : ℚ) : WithBot ℚ), 2) := by
    have hlt : ¬ ((((2 : ℚ) : WithBot ℚ), 2) : WithBot ℚ × ℕ).1
        < (((-9 : ℚ) / 3 : ℚ) : WithBot ℚ) := by
      show ¬ ((2 : ℚ) : WithBot ℚ) < (((-9 : ℚ) / 3 : ℚ) : WithBot ℚ)
      rw [WithBot.coe_lt_coe]
      norm_num
    simp only [cvBody, hf3]
    rw [if_neg hns, if_neg hlt]
  have hcand : candidates S8 = [2, 3] := rfl
  refine ⟨?_, rfl, rfl, rfl, rfl, rfl⟩
  unfold SelectorCV.select
  rw [hcand]
  simp only [selLoop, hb2, hb3]
  exact refit_model S8 _ 2 _ rfl

theorem cvFoldLoop_sum (S : ModelSelector) (n : ℕ) (hv : S.verbose = false) :
    ∀ (fs : List ℕ) (a : ℚ),
      fs.foldl
          (fun acc f =>
            match acc with
            | none => none
            | some s =>
              match S.cvFold n f with
              | some l => some (s + l)
              | none => if S.verbose then none else some s)
          (some a)
        = some (a + (fs.filterMap (S.cvFold n)).sum) := by
  intro fs
  induction fs with
  | nil => intro a; simp
  | cons f t ih =>
    intro a
    cases hcf : S.cvFold n f with
    | some l => simp [hcf, ih, add_assoc]
    | none =>
      simp [hv] at ih
      simp [hcf, hv, ih]

/-- C8 amended: with `verbose` off, a candidate with failed folds is *not*
excluded: each failed fold simply contributes nothing to the accumulated
score, the accumulated score is still divided by the fixed `n_split = 3`,
and the candidate takes part in the `best_score` comparison with that
average.  (With `verbose` on, the first failed fold aborts `select()` with
`None`.) -/
theorem claim_C8 (S : ModelSelector) (st : WithBot ℚ × ℕ) (n : ℕ)
    (hv : S.verbose = false) (h3 : 3 ≤ S.numSeq) :
    cvFoldLoop S n = some (((List.range 3).filterMap (S.cvFold n)).sum)
      ∧ cvBody S st n = Sum.inr
          (if st.1 < (((((List.range 3).filterMap (S.cvFold n)).sum / 3 : ℚ)) : WithBot ℚ)
            then ((((((List.range 3).filterMap (S.cvFold n)).sum / 3 : ℚ)) : WithBot ℚ), n)
            else st) := by
  have hfl : cvFoldLoop S n = some (((List.range 3).filterMap (S.cvFold n)).sum) := by
    rw [cvFoldLoop, cvFoldLoop_sum S n hv (List.range 3) 0, zero_add]
  refine ⟨hfl, ?_⟩
  simp only [cvBody, hfl]
  rw [if_neg (Nat.not_lt.mpr h3)]

/-- Witness for the C8 amended claim at `S8`, candidate 2, initial loop
state: the two failed folds contribute nothing and the single success is
still divided by 3. -/
theorem claim_C8_witness :
    cvFoldLoop S8 2 = some (((List.range 3).filterMap (S8.cvFold 2)).sum)
      ∧ cvBody S8 ((⊥ : WithBot ℚ), 2) 2 = Sum.inr
          (if ((⊥ : WithBot ℚ), 2).1
              < (((((List.range 3).filterMap (S8.cvFold 2)).sum / 3 : ℚ)) : WithBot ℚ)
            then ((((((List.range 3).filterMap (S8.cvFold 2)).sum / 3 : ℚ)) : WithBot ℚ), 2)
            else ((⊥ : WithBot ℚ), 2)) :=
  claim_C8 S8 ((⊥ : WithBot ℚ), 2) 2 (by decide) (by decide)

end AslRec
